import Mathlib

/-!
Verification development for the ECP integral engine (`src/ecpint.cpp`).

The C++ code works with `double`; the shallow embedding models these values
as exact rationals (`ℚ`).  Transcendental ingredients that live outside the
translation units under `src/` (the modified spherical Bessel tabulator from
`mathutil`, `exp`, the ECP radial potential `ECP::evaluate`, and the
Gauss-Chebyshev quadrature routine `GCQuadrature::integrate`) are taken as
abstract function parameters: every claim below is about the code that
manipulates their values, not about the transcendental functions themselves.

Tables (`ThreeIndex`, `FiveIndex`, `SevenIndex`, `Matrix`) are modelled as
total functions from index tuples to `ℚ`, updated functionally in the same
order as the imperative code writes them.  Separately, the flattening maps
from index tuples to backing-matrix cells are embedded exactly as written,
so that their injectivity (which justifies the functional model) is itself
a proved claim.
-/

/-- Embedding of `facArray` from `ecpint.cpp`: `values[0] = 1`,
`values[i] = values[i-1] * i`. -/
def facA : ℕ → ℚ
  | 0 => 1
  | n + 1 => facA n * (n + 1)

/-- The negligibility threshold `1e-14` used by `ECPIntegral::type1`. -/
def eps14 : ℚ := 1 / 10 ^ 14

/-- The degenerate-distance threshold `1e-12` used by `RadialIntegral::type1`. -/
def eps12 : ℚ := 1 / 10 ^ 12

namespace ThreeIndex

/-- Backing-matrix cell addressed by `ThreeIndex::operator()(i,j,k)`:
`data(i, j*dims[2] + k)` where `dims[2] = d3`. -/
def cell (d3 i j k : ℕ) : ℕ × ℕ := (i, j * d3 + k)

end ThreeIndex

namespace FiveIndex

/-- Backing-matrix cell addressed by `FiveIndex::operator()(i,j,k,l,m)`:
`data(i*dims[1] + j, k*dims[3]*dims[4] + l*dims[4] + m)`. -/
def cell (d2 d4 d5 i j k l m : ℕ) : ℕ × ℕ :=
  (i * d2 + j, k * d4 * d5 + l * d5 + m)

end FiveIndex

namespace SevenIndex

/-- Backing-matrix cell addressed by `SevenIndex::operator()(i,j,k,l,m,n,p)`:
`data(i*dims[1]*dims[2] + j*dims[2] + k,
      l*dims[4]*dims[5]*dims[6] + m*dims[5]*dims[6] + n*dims[6] + p)`. -/
def cell (d2 d3 d5 d6 d7 i j k l m n p : ℕ) : ℕ × ℕ :=
  (i * d2 * d3 + j * d3 + k, l * d5 * d6 * d7 + m * d6 * d7 + n * d7 + p)

end SevenIndex

namespace AngularIntegral

/-- Innermost loop body of `AngularIntegral::Pijk`:
`values(i,j,k) = values(i,j,k-1) * (2k-1) / (2(i+j+k)+1)`. -/
def PijkK (i j : ℕ) (T : ℕ × ℕ × ℕ → ℚ) (k : ℕ) : ℕ × ℕ × ℕ → ℚ :=
  Function.update T (i, j, k)
    (T (i, j, k - 1) * (2 * (k : ℚ) - 1) / (2 * ((i : ℚ) + j + k) + 1))

/-- Middle loop body of `AngularIntegral::Pijk`:
`values(i,j,0) = values(i,j-1,0) * (2j-1) / (2(i+j)+1)` followed by the
`k = 1..j` inner loop. -/
def PijkJ (i : ℕ) (T : ℕ × ℕ × ℕ → ℚ) (j : ℕ) : ℕ × ℕ × ℕ → ℚ :=
  let T1 := Function.update T (i, j, 0)
    (T (i, j - 1, 0) * (2 * (j : ℚ) - 1) / (2 * ((i : ℚ) + j) + 1))
  (List.range' 1 j).foldl (PijkK i j) T1

/-- Outer loop body of `AngularIntegral::Pijk`:
`values(i,0,0) = 4π/(2i+1)` followed by the `j = 1..i` loop. -/
def PijkI (pi : ℚ) (T : ℕ × ℕ × ℕ → ℚ) (i : ℕ) : ℕ × ℕ × ℕ → ℚ :=
  let T1 := Function.update T (i, 0, 0) (4 * pi / (2 * (i : ℚ) + 1))
  (List.range' 1 i).foldl (PijkJ i) T1

/-- Embedding of `AngularIntegral::Pijk(maxI)`: the table seeded at
`values(0,0,0) = 4π` and filled by the two-level recursion.  `pi` stands for
the double constant `M_PI`. -/
def Pijk (maxI : ℕ) (pi : ℚ) : ℕ × ℕ × ℕ → ℚ :=
  let T0 : ℕ × ℕ × ℕ → ℚ := Function.update (fun _ => 0) (0, 0, 0) (4 * pi)
  (List.range' 1 maxI).foldl (PijkI pi) T0

end AngularIntegral

namespace RadialIntegral

/-- Direction-cosine computation from `RadialIntegral::type1`:
`x = fabs(P(a,b)) < 1e-12 ? 0.0 : (za*A[2] + zb*B[2]) / (p(a,b)*P(a,b))`.
The division is modelled as guarded: `none` marks a division by zero. -/
def dirX (pab Pab za zb Az Bz : ℚ) : Option ℚ :=
  if |Pab| < eps12 then some 0
  else if pab * Pab = 0 then none
  else some ((za * Az + zb * Bz) / (pab * Pab))

end RadialIntegral

/-- Index tuples of the seven-index Omega table. -/
abbrev Idx7 := ℕ × ℕ × ℕ × ℕ × ℕ × ℕ × ℕ

instance : DecidableEq Idx7 := instDecidableEqProd

namespace AngularIntegral

/-- Swap of the two (index, stored-magnetic-index) pairs of an Omega tuple:
`(k,l,m,a,b,c,d) ↦ (k,l,m,c,d,a,b)`. -/
def mirror (t : Idx7) : Idx7 :=
  (t.1, t.2.1, t.2.2.1, t.2.2.2.2.2.1, t.2.2.2.2.2.2, t.2.2.2.1, t.2.2.2.2.1)

/-- Inner double sum of `AngularIntegral::makeOmega`: the accumulation of
`U(lam, mu, i, j, sgn) * W(k+i, l+j, m+lam-i-j, rho, rho+sigma)` over
`0 ≤ i ≤ lam`, `0 ≤ j ≤ lam - i`.  `sp` stands for the stored index
`rho + sigma`. -/
def omSum (U : ℕ → ℕ → ℕ → ℕ → ℕ → ℚ) (W : ℕ → ℕ → ℕ → ℕ → ℕ → ℚ)
    (k l m rho sp lam mu sgn : ℕ) : ℚ :=
  ∑ i ∈ Finset.range (lam + 1), ∑ j ∈ Finset.range (lam - i + 1),
    U lam mu i j sgn * W (k + i) (l + j) (m + lam - i - j) rho sp

/-- Body of the seven-deep loop nest of `AngularIntegral::makeOmega` for one
tuple `(k, l, m, rho, sp, lam, mu)`: computes `om_plus`/`om_minus`, applies
the `mu == 0` reflection special case, and performs the four sequential table
writes (direct and mirrored cells). -/
def omegaStep (U W : ℕ → ℕ → ℕ → ℕ → ℕ → ℚ) (T : Idx7 → ℚ) (t : Idx7) : Idx7 → ℚ :=
  match t with
  | (k, l, m, rho, sp, lam, mu) =>
    let plus := omSum U W k l m rho sp lam mu 0
    let minus := if mu = 0 then plus else omSum U W k l m rho sp lam mu 1
    let T1 := Function.update T (k, l, m, rho, sp, lam, lam + mu) plus
    let T2 := Function.update T1 (k, l, m, lam, lam + mu, rho, sp) plus
    let T3 := Function.update T2 (k, l, m, rho, sp, lam, lam - mu) minus
    Function.update T3 (k, l, m, lam, lam - mu, rho, sp) minus

/-- Loop-nest enumeration of `AngularIntegral::makeOmega` in source order:
`k, l, m ∈ [0, LB]`, `rho ∈ [0, lamDim]`, `sigma ∈ [-rho, rho]` (stored as
`sp = sigma + rho ∈ [0, 2·rho]`), `lam ∈ [0, rho]`, `mu ∈ [0, lam]`. -/
def omegaTuples (LB lamDim : ℕ) : List Idx7 :=
  (List.range (LB + 1)).flatMap fun k =>
  (List.range (LB + 1)).flatMap fun l =>
  (List.range (LB + 1)).flatMap fun m =>
  (List.range (lamDim + 1)).flatMap fun rho =>
  (List.range (2 * rho + 1)).flatMap fun sp =>
  (List.range (rho + 1)).flatMap fun lam =>
  (List.range (lam + 1)).map fun mu => (k, l, m, rho, sp, lam, mu)

/-- Embedding of `AngularIntegral::makeOmega` over given `U` and `W` tables:
the zero-initialized seven-index table after all writes, with
`lamDim = LE + LB`. -/
def makeOmega (LB LE : ℕ) (U W : ℕ → ℕ → ℕ → ℕ → ℕ → ℚ) : Idx7 → ℚ :=
  (omegaTuples LB (LE + LB)).foldl (omegaStep U W) (fun _ => 0)

/-- Pair-swap symmetry of a seven-index table: the property claimed of the
Omega table. -/
def OmegaSym (T : Idx7 → ℚ) : Prop := ∀ t : Idx7, T (mirror t) = T t

end AngularIntegral

namespace RadialIntegral

/-- Quadrature-grid state used by the radial engine: point count, abscissae
and the mutable non-negligible-support window `[start, stop]` (`stop` embeds
the C++ field `end`). -/
structure GCQuadrature where
  n : ℕ
  x : ℕ → ℚ
  start : ℕ
  stop : ℕ

/-- Integrand array built inside `RadialIntegral::integrate`: the tabulated
row of `intValues` inside the grid's active window, zero outside it. -/
def windowParams (g : GCQuadrature) (row : ℕ → ℚ) : ℕ → ℚ :=
  fun i => if g.start ≤ i ∧ i ≤ g.stop then row i else 0

/-- Loop of `RadialIntegral::integrate` over the angular-momentum ladder
`l = offset, offset+skip, ...` up to `maxL`.  The state carries the `test`
flag (`none` models the never-assigned `int test`), the output vector, and
the list of indices for which quadrature was attempted (instrumentation of
the calls to `grid.integrate`).  `qint` is the abstract `grid.integrate`,
returning the convergence flag and the integral value; the fuel argument is
`maxL + 1`, enough for every positive `skip`. -/
def integrateLoop (qint : (ℕ → ℚ) → ℤ × ℚ) (params : ℕ → ℕ → ℚ) (maxL skip : ℕ) :
    ℕ → ℕ → Option ℤ × (ℕ → ℚ) × List ℕ → Option ℤ × (ℕ → ℚ) × List ℕ
  | 0, _, st => st
  | fuel + 1, l, (test, values, att) =>
    if maxL < l then (test, values, att)
    else
      let r := qint (params l)
      let values1 := Function.update values l r.2
      let att1 := att ++ [l]
      if r.1 = 0 then (some 0, values1, att1)
      else integrateLoop qint params maxL skip fuel (l + skip) (some r.1, values1, att1)

/-- Embedding of `RadialIntegral::integrate`: zeroes the output vector, then
walks the ladder from `offset` with stride `skip`, breaking on the first
quadrature-convergence failure (`test == 0`). -/
def integrate (qint : (ℕ → ℚ) → ℤ × ℚ) (maxL : ℕ) (intValues : ℕ → ℕ → ℚ)
    (g : GCQuadrature) (offset skip : ℕ) : Option ℤ × (ℕ → ℚ) × List ℕ :=
  integrateLoop qint (fun l => windowParams g (intValues l)) maxL skip
    (maxL + 1) offset (none, fun _ => 0, [])

/-- Window-detection state of `RadialIntegral::buildU`: the grid's `start`
and `stop` fields together with the local `foundStart` flag. -/
structure WinState where
  start : ℕ
  stop : ℕ
  found : Bool

/-- Tabulated array written by `RadialIntegral::buildU`:
`Utab[i] = r^(N+2) * U.evaluate(r, l)` at `r = gridPoints[i]`. -/
def buildUtab (Ufn : ℚ → ℕ → ℚ) (l N : ℕ) (g : GCQuadrature) : ℕ → ℚ :=
  fun i => g.x i ^ (N + 2) * Ufn (g.x i) l

/-- One iteration of the window-detection loop of `RadialIntegral::buildU`:
`if (Utab[i] > tolerance && !foundStart) { grid.start = i; foundStart = true; }`
then
`if (Utab[i] < tolerance && foundStart) { grid.end = i-1; foundStart = false; }`. -/
def buildUstep (tol : ℚ) (utab : ℕ → ℚ) (s : WinState) (i : ℕ) : WinState :=
  let s1 := if tol < utab i ∧ s.found = false then { s with start := i, found := true } else s
  if utab i < tol ∧ s1.found = true then { s1 with stop := i - 1, found := false } else s1

/-- Embedding of `RadialIntegral::buildU`: returns the tabulated integrand
and the grid with its window fields as the detection loop leaves them (the
incoming `g.start`/`g.stop` are the caller's presets, which survive when the
corresponding trigger never fires). -/
def buildU (Ufn : ℚ → ℕ → ℚ) (l N : ℕ) (tol : ℚ) (g : GCQuadrature) :
    (ℕ → ℚ) × GCQuadrature :=
  let utab := buildUtab Ufn l N g
  let fin := (List.range g.n).foldl (buildUstep tol utab) ⟨g.start, g.stop, false⟩
  (utab, { g with start := fin.start, stop := fin.stop })

/-- Direction-cosine computation guard (see `dirX` above) paired with a
contracted Gaussian shell: primitive count, exponents and coefficients. -/
structure GaussianShell where
  np : ℕ
  zeta : ℕ → ℚ
  d : ℕ → ℚ

/-- Embedding of `RadialIntegral::buildF`: the per-shell radial profile
`F(l, i) = Σ_a coef_a · exp(-ζ_a (r_i - A)²) · K_l(2 ζ_a A r_i)` accumulated
for `start ≤ i ≤ stop` and left zero outside that window.  `bessel` is the
abstract tabulator `bessie.calculate`, `Efn` the abstract `exp`, and `A` the
magnitude of the shell's center. -/
def buildF (bessel : ℕ → ℚ → ℚ) (Efn : ℚ → ℚ) (S : GaussianShell) (A : ℚ)
    (x : ℕ → ℚ) (start stop : ℕ) (l i : ℕ) : ℚ :=
  if start ≤ i ∧ i ≤ stop then
    ∑ a ∈ Finset.range S.np,
      S.d a * Efn (-S.zeta a * (x i - A) ^ 2) * bessel l (2 * S.zeta a * A * x i)
  else 0

/-- Abstract numerical environment of `RadialIntegral::type2`: the Bessel
tabulator and `exp` (from `mathutil`, outside `src/`), the ECP potential,
the small transformed grid (abscissae, size, quadrature), and the big-grid
family indexed by the `transformRMinMax(p, c)` parameters. -/
structure RadialEnv where
  bessel : ℕ → ℚ → ℚ
  Efn : ℚ → ℚ
  Ufn : ℚ → ℕ → ℚ
  qSmall : (ℕ → ℚ) → ℤ × ℚ
  xSmall : ℕ → ℚ
  nSmall : ℕ
  qBig : ℚ → ℚ → (ℕ → ℚ) → ℤ × ℚ
  xBig : ℚ → ℚ → ℕ → ℚ
  nBig : ℕ

/-- Small-grid (first-attempt) path of `RadialIntegral::type2` for one row
`l1`: window reset to `[0, gridSize]`, `buildU`, the two `F` profiles, the
tabulated integrand `Utab[i] * Fa(l1,i) * Fb(l2,i)`, and the call
`integrate(maxL2, gridSize, intValues, smallGrid, tempValues)` with the
default `offset = 0`, `skip = 1`.  `A`/`B` are the center magnitudes. -/
def type2SmallRow (env : RadialEnv) (SA SB : GaussianShell) (A B : ℚ)
    (l N maxL1 maxL2 : ℕ) (tol : ℚ) (l1 : ℕ) : Option ℤ × (ℕ → ℚ) × List ℕ :=
  let g0 : GCQuadrature := ⟨env.nSmall, env.xSmall, 0, env.nSmall⟩
  let bu := buildU env.Ufn l N tol g0
  let Fa := buildF env.bessel env.Efn SA A env.xSmall bu.2.start bu.2.stop
  let Fb := buildF env.bessel env.Efn SB B env.xSmall bu.2.start bu.2.stop
  let intValues : ℕ → ℕ → ℚ := fun l2 i => bu.1 i * Fa l1 i * Fb l2 i
  integrate env.qSmall maxL2 intValues bu.2 0 1

/-- Large-grid fallback path of `RadialIntegral::type2` for a failed row:
per primitive pair `(a, b)`, the big grid is re-parameterized by
`(p(a,b), (ζ_a·A + ζ_b·B)/p(a,b))`, `buildU` re-tabulates the potential, and
the integrand combines the shell-A profile — tabulated, exactly as in the
source, at the SMALL-grid abscissae and at Bessel order `l2` — with the
shell-B profile at the transformed big-grid abscissae, then
`values(l1, l2) += c_a · c_b · tempValues[l2]`.  Note the result does not
depend on `l1`. -/
def type2FallbackRow (env : RadialEnv) (SA SB : GaussianShell) (A B : ℚ)
    (l N maxL2 : ℕ) (tol : ℚ) (l2 : ℕ) : ℚ :=
  ∑ a ∈ Finset.range SA.np, ∑ b ∈ Finset.range SB.np,
    (let za := SA.zeta a
     let zb := SB.zeta b
     let pab := za + zb
     let cab := (za * A + zb * B) / pab
     let xg := env.xBig pab cab
     let g0 : GCQuadrature := ⟨env.nBig, xg, 0, env.nBig⟩
     let bu := buildU env.Ufn l N tol g0
     let FaT : ℕ → ℕ → ℚ := fun lq i =>
       env.bessel lq (2 * za * A * env.xSmall i) * env.Efn (-za * (env.xSmall i - A) ^ 2)
     let FbT : ℕ → ℕ → ℚ := fun lq i =>
       env.bessel lq (2 * zb * B * xg i) * env.Efn (-zb * (xg i - B) ^ 2)
     let intValues : ℕ → ℕ → ℚ := fun lq i => bu.1 i * FaT lq i * FbT lq i
     SA.d a * SB.d b * (integrate (env.qBig pab cab) maxL2 intValues bu.2 0 1).2.1 l2)

/-- Final `(l1, l2)` entry of `RadialIntegral::type2`: the small-grid value,
overwritten by the fallback recomputation exactly when that row's
convergence test failed (`tests[l1] == 0`). -/
def type2Value (env : RadialEnv) (SA SB : GaussianShell) (A B : ℚ)
    (l N maxL1 maxL2 : ℕ) (tol : ℚ) (l1 l2 : ℕ) : ℚ :=
  let row := type2SmallRow env SA SB A B l N maxL1 maxL2 tol l1
  if row.1 = some 0 then type2FallbackRow env SA SB A B l N maxL2 tol l2
  else row.2.1 l2

end RadialIntegral

namespace ECPIntegral

/-- Embedding of `ECPIntegral::calcC`: the binomial re-expansion coefficient
`(-1)^(a-m) · A^(a-m) · a! / (m! (a-m)!)`, written exactly as the source
computes it. -/
def calcC (a m : ℕ) (A : ℚ) (fac : ℕ → ℚ) : ℚ :=
  (1 - 2 * (((a - m) % 2 : ℕ) : ℚ)) * A ^ (a - m) * (fac a / (fac m * fac (a - m)))

/-- Inner `(lam, mu)` double loop of `ECPIntegral::type1` for one
re-expansion tuple with combined indices `(k, l, m)` and coefficient `C`:
`lam` runs over `ix % 2, ix % 2 + 2, ..., ix` and `mu` over
`(ix % 2 + m) % 2, ..., lam`, accumulating
`C * angInts.getIntegral(k, l, m, lam, msign*mu) * radials(ix, lam, lam + msign*mu)`
with `msign = (-1)^l`.  `ang` and `radials` are the angular table lookup and
the radial cache, keyed by the signed magnetic index. -/
def lamMuSum (ang : ℕ → ℕ → ℕ → ℕ → ℤ → ℚ) (radials : ℕ → ℕ → ℤ → ℚ)
    (k l m : ℕ) (C : ℚ) : ℚ :=
  let ix := k + l + m
  let msign : ℤ := 1 - 2 * ((l : ℤ) % 2)
  ∑ lam ∈ (Finset.range (ix + 1)).filter (fun lam => lam % 2 = ix % 2),
    ∑ mu ∈ (Finset.range (lam + 1)).filter (fun mu => mu % 2 = (ix % 2 + m) % 2),
      C * ang k l m lam (msign * mu) * radials ix lam (lam + msign * mu)

/-- Shell-pair matrix entry of `ECPIntegral::type1` for the Cartesian
components `(x1, y1, z1)` of shell A and `(x2, y2, z2)` of shell B: the
six-deep binomial re-expansion loop with the `|C| > 1e-14` prune, followed
by the final `*= 4π` scaling. -/
def chiEntry (x1 y1 z1 x2 y2 z2 : ℕ) (Ax Ay Az Bx By Bz : ℚ) (fac : ℕ → ℚ)
    (ang : ℕ → ℕ → ℕ → ℕ → ℤ → ℚ) (radials : ℕ → ℕ → ℤ → ℚ) (pi : ℚ) : ℚ :=
  (∑ k1 ∈ Finset.range (x1 + 1), ∑ k2 ∈ Finset.range (x2 + 1),
   ∑ l1 ∈ Finset.range (y1 + 1), ∑ l2 ∈ Finset.range (y2 + 1),
   ∑ m1 ∈ Finset.range (z1 + 1), ∑ m2 ∈ Finset.range (z2 + 1),
     (let C := calcC x1 k1 Ax fac * calcC y1 l1 Ay fac * calcC z1 m1 Az fac *
               calcC x2 k2 Bx fac * calcC y2 l2 By fac * calcC z2 m2 Bz fac
      if eps14 < |C| then lamMuSum ang radials (k1 + k2) (l1 + l2) (m1 + m2) C else 0))
  * (4 * pi)

/-- Same contraction as `chiEntry` but with the `|C| > 1e-14` negligibility
prune disabled: every re-expansion term is accumulated. -/
def chiEntryNoPrune (x1 y1 z1 x2 y2 z2 : ℕ) (Ax Ay Az Bx By Bz : ℚ) (fac : ℕ → ℚ)
    (ang : ℕ → ℕ → ℕ → ℕ → ℤ → ℚ) (radials : ℕ → ℕ → ℤ → ℚ) (pi : ℚ) : ℚ :=
  (∑ k1 ∈ Finset.range (x1 + 1), ∑ k2 ∈ Finset.range (x2 + 1),
   ∑ l1 ∈ Finset.range (y1 + 1), ∑ l2 ∈ Finset.range (y2 + 1),
   ∑ m1 ∈ Finset.range (z1 + 1), ∑ m2 ∈ Finset.range (z2 + 1),
     lamMuSum ang radials (k1 + k2) (l1 + l2) (m1 + m2)
       (calcC x1 k1 Ax fac * calcC y1 l1 Ay fac * calcC z1 m1 Az fac *
        calcC x2 k2 Bx fac * calcC y2 l2 By fac * calcC z2 m2 Bz fac))
  * (4 * pi)

/-- Binomial re-expansion index tuples `((k1,k2),((l1,l2),(m1,m2)))` bounded
by the Cartesian powers of the two components. -/
def tupleSet (x1 x2 y1 y2 z1 z2 : ℕ) : Finset ((ℕ × ℕ) × (ℕ × ℕ) × (ℕ × ℕ)) :=
  (Finset.range (x1 + 1) ×ˢ Finset.range (x2 + 1)) ×ˢ
  ((Finset.range (y1 + 1) ×ˢ Finset.range (y2 + 1)) ×ˢ
   (Finset.range (z1 + 1) ×ˢ Finset.range (z2 + 1)))

/-- Combined re-expansion coefficient `C` of one index tuple: the product of
the six `calcC` factors. -/
def coeffC (x1 y1 z1 x2 y2 z2 : ℕ) (Ax Ay Az Bx By Bz : ℚ) (fac : ℕ → ℚ)
    (t : (ℕ × ℕ) × (ℕ × ℕ) × (ℕ × ℕ)) : ℚ :=
  calcC x1 t.1.1 Ax fac * calcC y1 t.2.1.1 Ay fac * calcC z1 t.2.2.1 Az fac *
  calcC x2 t.1.2 Bx fac * calcC y2 t.2.1.2 By fac * calcC z2 t.2.2.2 Bz fac

/-- The `(λ, μ)` pairs the claim sums over: `λ ≤ ix` with the parity of the
combined index `ix`, and `μ ≤ λ` with the parity of `ix + m` (the magnitude
of the signed magnetic index enumerated by the source). -/
def pairSet (ix mval : ℕ) : Finset (ℕ × ℕ) :=
  (Finset.range (ix + 1) ×ˢ Finset.range (ix + 1)).filter
    (fun q => q.1 % 2 = ix % 2 ∧ q.2 ≤ q.1 ∧ q.2 % 2 = (ix % 2 + mval) % 2)

/-- Specification form of the shell-pair matrix entry, following the claim:
`4π` times the sum over all re-expansion tuples whose coefficient survives
the `|C| > 1e-14` threshold, and over all parity-matching `(λ, μ)` pairs, of
`C` times the angular lookup times the cached radial integral (both at the
signed magnetic index `(-1)^l · μ`). -/
def chiEntrySpec (x1 y1 z1 x2 y2 z2 : ℕ) (Ax Ay Az Bx By Bz : ℚ) (fac : ℕ → ℚ)
    (ang : ℕ → ℕ → ℕ → ℕ → ℤ → ℚ) (radials : ℕ → ℕ → ℤ → ℚ) (pi : ℚ) : ℚ :=
  4 * pi *
  ∑ t ∈ (tupleSet x1 x2 y1 y2 z1 z2).filter
      (fun t => eps14 < |coeffC x1 y1 z1 x2 y2 z2 Ax Ay Az Bx By Bz fac t|),
    (let k := t.1.1 + t.1.2
     let l := t.2.1.1 + t.2.1.2
     let m := t.2.2.1 + t.2.2.2
     let ix := k + l + m
     let msign : ℤ := 1 - 2 * ((l : ℤ) % 2)
     ∑ q ∈ pairSet ix m,
       coeffC x1 y1 z1 x2 y2 z2 Ax Ay Az Bx By Bz fac t *
         ang k l m q.1 (msign * q.2) * radials ix q.1 (q.1 + msign * q.2))

/-- Per-tuple bound term for the pruning analysis: the sum of the absolute
values of the angular-times-radial factors over the `(λ, μ)` loop of one
re-expansion tuple. -/
def lamMuAbsSum (ang : ℕ → ℕ → ℕ → ℕ → ℤ → ℚ) (radials : ℕ → ℕ → ℤ → ℚ)
    (k l m : ℕ) : ℚ :=
  let ix := k + l + m
  let msign : ℤ := 1 - 2 * ((l : ℤ) % 2)
  ∑ lam ∈ (Finset.range (ix + 1)).filter (fun lam => lam % 2 = ix % 2),
    ∑ mu ∈ (Finset.range (lam + 1)).filter (fun mu => mu % 2 = (ix % 2 + m) % 2),
      |ang k l m lam (msign * mu) * radials ix lam (lam + msign * mu)|

end ECPIntegral

/-- Helper: a fold whose every step leaves the observation `g` unchanged
leaves `g` of the result unchanged. -/
theorem foldl_preserve {α β γ : Sort _} (f : α → β → α) (g : α → γ) (l : List β) (s : α)
    (h : ∀ a x, x ∈ l → g (f a x) = g a) : g (l.foldl f s) = g s := by
  induction l generalizing s with
  | nil => rfl
  | cons x xs ih =>
    rw [List.foldl_cons, ih _ (fun a y hy => h a y (List.mem_cons_of_mem _ hy))]
    exact h s x (List.mem_cons_self _ _)

/-- Helper: a fold each of whose steps fixes the state leaves it unchanged. -/
theorem foldl_fixed {α β : Type _} (f : α → β → α) (l : List β) (s : α)
    (h : ∀ x ∈ l, f s x = s) : l.foldl f s = s := by
  induction l with
  | nil => rfl
  | cons x xs ih =>
    rw [List.foldl_cons, h x (List.mem_cons_self _ _)]
    exact ih (fun y hy => h y (List.mem_cons_of_mem _ hy))

/-- Helper: positional flattening `a*b + c` with `c < b` determines both
digits. -/
theorem flat_pair_inj {b a c a2 c2 : ℕ} (h1 : c < b) (h2 : c2 < b)
    (h : a * b + c = a2 * b + c2) : a = a2 ∧ c = c2 := by
  have hb : 0 < b := lt_of_le_of_lt (Nat.zero_le c) h1
  have e1 : (a * b + c) / b = a := by
    rw [Nat.add_comm, Nat.add_mul_div_right _ _ hb, Nat.div_eq_of_lt h1, Nat.zero_add]
  have e2 : (a2 * b + c2) / b = a2 := by
    rw [Nat.add_comm, Nat.add_mul_div_right _ _ hb, Nat.div_eq_of_lt h2, Nat.zero_add]
  have ha : a = a2 := by rw [← e1, ← e2, h]
  subst ha
  exact ⟨rfl, Nat.add_left_cancel h⟩

/-- Helper: the flattened digit pair stays below the combined extent. -/
theorem flat_pair_lt {d2 d3 j k : ℕ} (hj : j < d2) (hk : k < d3) :
    j * d3 + k < d2 * d3 :=
  calc j * d3 + k < j * d3 + d3 := by omega
  _ = (j + 1) * d3 := by ring
  _ ≤ d2 * d3 := Nat.mul_le_mul_right _ hj

/-- C10: for the ThreeIndex, FiveIndex and SevenIndex tensor types, the
flattening of a multi-index tuple into the backing-matrix cell performed by
`operator()` is injective on in-range tuples: two distinct in-range tuples
always address distinct storage cells, so writing one table entry never
changes any other entry. -/
theorem tensor_cell_injective :
    (∀ d1 d2 d3 i j k i2 j2 k2 : ℕ, i < d1 → j < d2 → k < d3 →
      i2 < d1 → j2 < d2 → k2 < d3 →
      ThreeIndex.cell d3 i j k = ThreeIndex.cell d3 i2 j2 k2 →
      (i, j, k) = (i2, j2, k2)) ∧
    (∀ d1 d2 d3 d4 d5 i j k l m i2 j2 k2 l2 m2 : ℕ,
      i < d1 → j < d2 → k < d3 → l < d4 → m < d5 →
      i2 < d1 → j2 < d2 → k2 < d3 → l2 < d4 → m2 < d5 →
      FiveIndex.cell d2 d4 d5 i j k l m = FiveIndex.cell d2 d4 d5 i2 j2 k2 l2 m2 →
      (i, j, k, l, m) = (i2, j2, k2, l2, m2)) ∧
    (∀ d1 d2 d3 d4 d5 d6 d7 i j k l m n p i2 j2 k2 l2 m2 n2 p2 : ℕ,
      i < d1 → j < d2 → k < d3 → l < d4 → m < d5 → n < d6 → p < d7 →
      i2 < d1 → j2 < d2 → k2 < d3 → l2 < d4 → m2 < d5 → n2 < d6 → p2 < d7 →
      SevenIndex.cell d2 d3 d5 d6 d7 i j k l m n p =
        SevenIndex.cell d2 d3 d5 d6 d7 i2 j2 k2 l2 m2 n2 p2 →
      (i, j, k, l, m, n, p) = (i2, j2, k2, l2, m2, n2, p2)) := by
  refine ⟨?_, ?_, ?_⟩
  · intro d1 d2 d3 i j k i2 j2 k2 _ hj hk _ hj2 hk2 h
    rw [ThreeIndex.cell, ThreeIndex.cell, Prod.mk.injEq] at h
    obtain ⟨hjj, hkk⟩ := flat_pair_inj hk hk2 h.2
    simp [h.1, hjj, hkk]
  · intro d1 d2 d3 d4 d5 i j k l m i2 j2 k2 l2 m2 _ hj hk hl hm _ hj2 hk2 hl2 hm2 h
    rw [FiveIndex.cell, FiveIndex.cell, Prod.mk.injEq] at h
    obtain ⟨hii, hjj⟩ := flat_pair_inj hj hj2 h.1
    have hcol : (k * d4 + l) * d5 + m = (k2 * d4 + l2) * d5 + m2 := by
      have := h.2; ring_nf at this ⊢; linarith [this]
    obtain ⟨hkl, hmm⟩ := flat_pair_inj hm hm2 hcol
    obtain ⟨hkk, hll⟩ := flat_pair_inj hl hl2 hkl
    simp [hii, hjj, hkk, hll, hmm]
  · intro d1 d2 d3 d4 d5 d6 d7 i j k l m n p i2 j2 k2 l2 m2 n2 p2
    intro _ hj hk hl hm hn hp _ hj2 hk2 hl2 hm2 hn2 hp2 h
    rw [SevenIndex.cell, SevenIndex.cell, Prod.mk.injEq] at h
    have hrow : (i * d2 + j) * d3 + k = (i2 * d2 + j2) * d3 + k2 := by
      have := h.1; ring_nf at this ⊢; linarith [this]
    obtain ⟨hij, hkk⟩ := flat_pair_inj hk hk2 hrow
    obtain ⟨hii, hjj⟩ := flat_pair_inj hj hj2 hij
    have hcol : ((l * d5 + m) * d6 + n) * d7 + p = ((l2 * d5 + m2) * d6 + n2) * d7 + p2 := by
      have := h.2; ring_nf at this ⊢; linarith [this]
    obtain ⟨hlmn, hpp⟩ := flat_pair_inj hp hp2 hcol
    obtain ⟨hlm, hnn⟩ := flat_pair_inj hn hn2 hlmn
    obtain ⟨hll, hmm⟩ := flat_pair_inj hm hm2 hlm
    simp [hii, hjj, hkk, hll, hmm, hnn, hpp]

/-- Witness for C10 at concrete extents and tuples. -/
theorem tensor_cell_injective_witness :
    (1 : ℕ) < 2 ∧
    ((1, 1, 1) : ℕ × ℕ × ℕ) = (1, 1, 1) := by
  refine ⟨by decide, ?_⟩
  exact tensor_cell_injective.1 2 2 2 1 1 1 1 1 1 (by decide) (by decide) (by decide)
    (by decide) (by decide) (by decide) rfl

/-- C8: in `RadialIntegral::type1`, when the weighted-center distance is
degenerate (`|P(a,b)| < 1e-12`), the direction-angle computation does not
divide by the zero distance: the polar cosine falls back to `0` and the
computation completes (no `none`). -/
theorem RadialIntegral.dirX_degenerate (pab Pab za zb Az Bz : ℚ)
    (h : |Pab| < eps12) :
    RadialIntegral.dirX pab Pab za zb Az Bz = some 0 := by
  simp [RadialIntegral.dirX, h]

/-- Witness for C8: a coincident-center pair (`P = 0`). -/
theorem RadialIntegral.dirX_degenerate_witness :
    |(0 : ℚ)| < eps12 ∧ RadialIntegral.dirX 2 0 1 1 1 1 = some 0 :=
  ⟨by norm_num [eps12], RadialIntegral.dirX_degenerate 2 0 1 1 1 1 (by norm_num [eps12])⟩

/-- Helper: the inner `k`-loop body of `Pijk` only writes cells whose third
index is the positive `k`, so every axis cell `(a, 0, 0)` is untouched. -/
theorem AngularIntegral.PijkK_axis (i j k a : ℕ) (hk : 1 ≤ k) (T : ℕ × ℕ × ℕ → ℚ) :
    AngularIntegral.PijkK i j T k (a, 0, 0) = T (a, 0, 0) := by
  unfold AngularIntegral.PijkK
  refine Function.update_noteq (fun he => ?_) _ T
  have : (0 : ℕ) = k := congrArg (fun t => t.2.2) he
  omega

/-- Helper: the `j`-loop body of `Pijk` for `j ≥ 1` only writes cells whose
second index is `j`, so every axis cell `(a, 0, 0)` is untouched. -/
theorem AngularIntegral.PijkJ_axis (i j a : ℕ) (hj : 1 ≤ j) (T : ℕ × ℕ × ℕ → ℚ) :
    AngularIntegral.PijkJ i T j (a, 0, 0) = T (a, 0, 0) := by
  unfold AngularIntegral.PijkJ
  rw [foldl_preserve (AngularIntegral.PijkK i j) (fun T => T (a, 0, 0))]
  · refine Function.update_noteq (fun he => ?_) _ T
    have : (0 : ℕ) = j := congrArg (fun t => t.2.1) he
    omega
  · intro Tc k hk
    exact AngularIntegral.PijkK_axis i j k a (List.mem_range'_1.mp hk).1 Tc

/-- Helper: the `i`-loop body of `Pijk` writes the axis cell `(i, 0, 0)` to
`4π/(2i+1)` and leaves every other axis cell unchanged. -/
theorem AngularIntegral.PijkI_axis (pi : ℚ) (i a : ℕ) (T : ℕ × ℕ × ℕ → ℚ) :
    AngularIntegral.PijkI pi T i (a, 0, 0) =
      if a = i then 4 * pi / (2 * (i : ℚ) + 1) else T (a, 0, 0) := by
  unfold AngularIntegral.PijkI
  rw [foldl_preserve (AngularIntegral.PijkJ i) (fun T => T (a, 0, 0))]
  · rcases eq_or_ne a i with h | h
    · subst h; rw [if_pos rfl]; exact Function.update_same _ _ _
    · rw [if_neg h]
      refine Function.update_noteq (fun he => ?_) _ T
      exact h (congrArg (fun t => t.1) he)
  · intro Tc j hj
    exact AngularIntegral.PijkJ_axis i j a (List.mem_range'_1.mp hj).1 Tc

/-- C7: in the table built by `AngularIntegral::Pijk`, the seed entry
`Pijk(0,0,0)` equals `4π` exactly, and for every `1 ≤ i ≤ maxI` the entry
`Pijk(i,0,0)` equals `4π/(2i+1)`. -/
theorem AngularIntegral.Pijk_seed_and_axis (maxI : ℕ) (pi : ℚ) (i : ℕ)
    (h1 : 1 ≤ i) (h2 : i ≤ maxI) :
    AngularIntegral.Pijk maxI pi (0, 0, 0) = 4 * pi ∧
    AngularIntegral.Pijk maxI pi (i, 0, 0) = 4 * pi / (2 * (i : ℚ) + 1) := by
  unfold AngularIntegral.Pijk
  constructor
  · rw [foldl_preserve (AngularIntegral.PijkI pi) (fun T => T (0, 0, 0))]
    · exact Function.update_same _ _ _
    · intro Tc x hx
      rw [AngularIntegral.PijkI_axis, if_neg]
      have := (List.mem_range'_1.mp hx).1
      omega
  · have hsplit : List.range' 1 maxI 1 =
        (List.range' 1 (i - 1) 1 ++ [i]) ++ List.range' (i + 1) (maxI - i) 1 := by
      have e1 : List.range' 1 (i - 1) 1 ++ List.range' (1 + (i - 1)) (maxI - (i - 1)) 1 =
          List.range' 1 ((maxI - (i - 1)) + (i - 1)) 1 := List.range'_append_1 _ _ _
      have e2 : (1 + (i - 1)) = i := by omega
      have e3 : (maxI - (i - 1)) + (i - 1) = maxI := by omega
      have e4 : maxI - (i - 1) = (maxI - i) + 1 := by omega
      rw [e2, e3] at e1
      rw [← e1, e4]
      simp [List.range'_succ, List.append_assoc]
    rw [hsplit, List.foldl_append, List.foldl_append]
    rw [foldl_preserve (AngularIntegral.PijkI pi) (fun T => T (i, 0, 0))]
    · rw [List.foldl_cons, List.foldl_nil, AngularIntegral.PijkI_axis, if_pos rfl]
    · intro Tc x hx
      rw [AngularIntegral.PijkI_axis, if_neg]
      have := (List.mem_range'_1.mp hx).1
      omega

/-- Witness for C7 at `maxI = 3`, `i = 2`, `pi = 1`. -/
theorem AngularIntegral.Pijk_seed_and_axis_witness :
    (1 ≤ 2 ∧ 2 ≤ 3) ∧
    (AngularIntegral.Pijk 3 1 (0, 0, 0) = 4 * 1 ∧
     AngularIntegral.Pijk 3 1 (2, 0, 0) = 4 * 1 / (2 * ((2 : ℕ) : ℚ) + 1)) :=
  ⟨⟨by decide, by decide⟩, AngularIntegral.Pijk_seed_and_axis 3 1 2 (by decide) (by decide)⟩

/-- Helper: `mirror` is an involution. -/
theorem AngularIntegral.mirror_mirror (t : Idx7) :
    AngularIntegral.mirror (AngularIntegral.mirror t) = t := rfl

/-- Helper: updating a table at a cell and at its mirror with one value
preserves pair-swap symmetry. -/
theorem AngularIntegral.sym_update_pair {T : Idx7 → ℚ} (hT : AngularIntegral.OmegaSym T)
    (p : Idx7) (v : ℚ) :
    AngularIntegral.OmegaSym
      (Function.update (Function.update T p v) (AngularIntegral.mirror p) v) := by
  intro x
  simp only [Function.update_apply]
  rcases eq_or_ne x p with h1 | h1
  · subst h1
    simp [ite_self]
  · rcases eq_or_ne x (AngularIntegral.mirror p) with h2 | h2
    · subst h2
      simp [AngularIntegral.mirror_mirror, ite_self]
    · have hm1 : AngularIntegral.mirror x ≠ AngularIntegral.mirror p := by
        intro he
        exact h1 (by rw [← AngularIntegral.mirror_mirror x, he, AngularIntegral.mirror_mirror])
      have hm2 : AngularIntegral.mirror x ≠ p := by
        intro he
        exact h2 (by rw [← he, AngularIntegral.mirror_mirror])
      rw [if_neg hm1, if_neg hm2, if_neg h2, if_neg h1]
      exact hT x

/-- Helper: one body iteration of `makeOmega` (four mirrored writes from one
computed `om_plus`/`om_minus` value) preserves pair-swap symmetry. -/
theorem AngularIntegral.omegaStep_sym (U W : ℕ → ℕ → ℕ → ℕ → ℕ → ℚ)
    (T : Idx7 → ℚ) (t : Idx7) (hT : AngularIntegral.OmegaSym T) :
    AngularIntegral.OmegaSym (AngularIntegral.omegaStep U W T t) := by
  obtain ⟨k, l, m, rho, sp, lam, mu⟩ := t
  exact AngularIntegral.sym_update_pair
    (AngularIntegral.sym_update_pair hT (k, l, m, rho, sp, lam, lam + mu) _)
    (k, l, m, rho, sp, lam, lam - mu) _

/-- Helper: the whole write loop of `makeOmega` preserves pair-swap
symmetry. -/
theorem AngularIntegral.foldl_omegaStep_sym (U W : ℕ → ℕ → ℕ → ℕ → ℕ → ℚ)
    (l : List Idx7) (T : Idx7 → ℚ) (hT : AngularIntegral.OmegaSym T) :
    AngularIntegral.OmegaSym (l.foldl (AngularIntegral.omegaStep U W) T) := by
  induction l generalizing T with
  | nil => exact hT
  | cons x xs ih => exact ih _ (AngularIntegral.omegaStep_sym U W T x hT)

/-- C5: for every configuration `(LB, LE)` and any `U`, `W` tables, the
seven-index Omega table built by `AngularIntegral::makeOmega` satisfies
`Omega(k,l,m,ρ,σ,λ,μ) = Omega(k,l,m,λ,μ,ρ,σ)` at every index tuple, because
every write stores one computed value into both the direct and the
reflected cell (this covers the table `AngularIntegral::compute` builds,
which calls `makeOmega` with the `U` and `W` it just computed). -/
theorem AngularIntegral.makeOmega_pair_symmetric (LB LE : ℕ)
    (U W : ℕ → ℕ → ℕ → ℕ → ℕ → ℚ) (k l m a b c d : ℕ) :
    AngularIntegral.makeOmega LB LE U W (k, l, m, a, b, c, d) =
    AngularIntegral.makeOmega LB LE U W (k, l, m, c, d, a, b) :=
  AngularIntegral.foldl_omegaStep_sym U W (AngularIntegral.omegaTuples LB (LE + LB))
    (fun _ => 0) (fun _ => rfl) (k, l, m, c, d, a, b)

/-- Helper: behavior of the ladder loop when the first quadrature failure
occurs at the `kf`-th attempted index.  The loop attempts exactly the
indices `offset, offset+skip, ..., offset+kf*skip` (appended to the incoming
instrumentation list), returns the failure flag `some 0`, and leaves the
output vector untouched at every index outside the attempted list. -/
theorem RadialIntegral.integrateLoop_first_fail
    (qint : (ℕ → ℚ) → ℤ × ℚ) (params : ℕ → ℕ → ℚ) (maxL skip : ℕ) (hskip : 1 ≤ skip) :
    ∀ (kf fuel offset : ℕ) (t0 : Option ℤ) (v0 : ℕ → ℚ) (att0 : List ℕ),
      kf + 1 ≤ fuel →
      offset + kf * skip ≤ maxL →
      (qint (params (offset + kf * skip))).1 = 0 →
      (∀ j, j < kf → (qint (params (offset + j * skip))).1 ≠ 0) →
      (RadialIntegral.integrateLoop qint params maxL skip fuel offset (t0, v0, att0)).1
        = some 0 ∧
      (RadialIntegral.integrateLoop qint params maxL skip fuel offset (t0, v0, att0)).2.2
        = att0 ++ List.range' offset (kf + 1) skip ∧
      ∀ i, i ∉ List.range' offset (kf + 1) skip →
        (RadialIntegral.integrateLoop qint params maxL skip fuel offset (t0, v0, att0)).2.1 i
          = v0 i := by
  intro kf
  induction kf with
  | zero =>
    intro fuel offset t0 v0 att0 hf hle hfail _
    obtain ⟨f, rfl⟩ : ∃ f, fuel = f + 1 := ⟨fuel - 1, by omega⟩
    rw [Nat.mul_comm, Nat.mul_zero, Nat.add_zero] at hle hfail
    have hnot : ¬ maxL < offset := by omega
    refine ⟨?_, ?_, ?_⟩ <;>
      simp only [RadialIntegral.integrateLoop, if_neg hnot, hfail, if_pos rfl]
    · rfl
    · rfl
    · intro i hi
      have hio : i ≠ offset := by
        intro he
        exact hi (by simp [he, List.range'])
      exact Function.update_noteq hio _ v0
  | succ k ih =>
    intro fuel offset t0 v0 att0 hf hle hfail hpre
    obtain ⟨f, rfl⟩ : ∃ f, fuel = f + 1 := ⟨fuel - 1, by omega⟩
    have hnot : ¬ maxL < offset := by
      have hpos : 0 < (k + 1) * skip := Nat.mul_pos (Nat.succ_pos k) hskip
      omega
    have hfirst : (qint (params offset)).1 ≠ 0 := by
      have := hpre 0 (Nat.succ_pos k)
      rwa [Nat.mul_comm, Nat.mul_zero, Nat.add_zero] at this
    have harith : ∀ j : ℕ, offset + skip + j * skip = offset + (j + 1) * skip := by
      intro j; ring
    have hle2 : offset + skip + k * skip ≤ maxL := by rw [harith]; exact hle
    have hfail2 : (qint (params (offset + skip + k * skip))).1 = 0 := by
      rw [harith]; exact hfail
    have hpre2 : ∀ j, j < k → (qint (params (offset + skip + j * skip))).1 ≠ 0 := by
      intro j hj
      rw [harith]
      exact hpre (j + 1) (Nat.succ_lt_succ hj)
    have hrec := ih (f) (offset + skip) (some (qint (params offset)).1)
      (Function.update v0 offset (qint (params offset)).2) (att0 ++ [offset])
      (by omega) hle2 hfail2 hpre2
    have hrange : List.range' offset (k + 1 + 1) skip =
        offset :: List.range' (offset + skip) (k + 1) skip := rfl
    refine ⟨?_, ?_, ?_⟩ <;>
      simp only [RadialIntegral.integrateLoop, if_neg hnot, if_neg hfirst]
    · exact hrec.1
    · rw [hrec.2.1, hrange, List.append_assoc]
      rfl
    · intro i hi
      rw [hrange] at hi
      have hi1 : i ≠ offset := fun he => hi (by simp [he])
      have hi2 : i ∉ List.range' (offset + skip) (k + 1) skip := fun hm =>
        hi (List.mem_cons_of_mem _ hm)
      rw [hrec.2.2 i hi2]
      exact Function.update_noteq hi1 _ v0

/-- C3: in `RadialIntegral::integrate`, quadrature is attempted for indices
`offset, offset+skip, ...` in increasing order; on the first index whose
quadrature fails (flag `0`) the routine stops — the attempted-index list is
exactly the ladder up to and including the failing index, every entry of the
output vector outside that list is exactly zero, and the returned flag is
the failure value `some 0`, signaling non-convergence to the caller. -/
theorem RadialIntegral.integrate_early_stop
    (qint : (ℕ → ℚ) → ℤ × ℚ) (maxL : ℕ) (intValues : ℕ → ℕ → ℚ)
    (g : RadialIntegral.GCQuadrature) (offset skip kf : ℕ)
    (hskip : 1 ≤ skip)
    (hle : offset + kf * skip ≤ maxL)
    (hfail : (qint (RadialIntegral.windowParams g (intValues (offset + kf * skip)))).1 = 0)
    (hpre : ∀ j, j < kf →
      (qint (RadialIntegral.windowParams g (intValues (offset + j * skip)))).1 ≠ 0) :
    (RadialIntegral.integrate qint maxL intValues g offset skip).1 = some 0 ∧
    (RadialIntegral.integrate qint maxL intValues g offset skip).2.2
      = List.range' offset (kf + 1) skip ∧
    ∀ i, i ∉ List.range' offset (kf + 1) skip →
      (RadialIntegral.integrate qint maxL intValues g offset skip).2.1 i = 0 := by
  have hfuel : kf + 1 ≤ maxL + 1 := by
    have hks : kf ≤ kf * skip := Nat.le_mul_of_pos_right kf hskip
    omega
  have h := RadialIntegral.integrateLoop_first_fail qint
    (fun l => RadialIntegral.windowParams g (intValues l)) maxL skip hskip
    kf (maxL + 1) offset none (fun _ => 0) [] hfuel hle hfail hpre
  exact ⟨h.1, by simpa using h.2.1, h.2.2⟩

/-- Witness for C3: a three-point ladder whose quadrature fails exactly at
the second attempted index. -/
theorem RadialIntegral.integrate_early_stop_witness :
    ((1 : ℕ) ≤ 1 ∧ 0 + 1 * 1 ≤ 2 ∧
     ((fun ps : ℕ → ℚ => (if ps 0 = 0 then (0 : ℤ) else 1, (7 : ℚ)))
        (RadialIntegral.windowParams ⟨3, fun _ => 0, 0, 2⟩
          ((fun (l _ : ℕ) => if l = 1 then (0 : ℚ) else 1) (0 + 1 * 1)))).1 = 0) ∧
    ((RadialIntegral.integrate (fun ps : ℕ → ℚ => (if ps 0 = 0 then (0 : ℤ) else 1, (7 : ℚ)))
        2 (fun (l _ : ℕ) => if l = 1 then (0 : ℚ) else 1) ⟨3, fun _ => 0, 0, 2⟩ 0 1).1
        = some 0 ∧
     (RadialIntegral.integrate (fun ps : ℕ → ℚ => (if ps 0 = 0 then (0 : ℤ) else 1, (7 : ℚ)))
        2 (fun (l _ : ℕ) => if l = 1 then (0 : ℚ) else 1) ⟨3, fun _ => 0, 0, 2⟩ 0 1).2.2
        = List.range' 0 2 1 ∧
     ∀ i, i ∉ List.range' 0 2 1 →
       (RadialIntegral.integrate (fun ps : ℕ → ℚ => (if ps 0 = 0 then (0 : ℤ) else 1, (7 : ℚ)))
          2 (fun (l _ : ℕ) => if l = 1 then (0 : ℚ) else 1) ⟨3, fun _ => 0, 0, 2⟩ 0 1).2.1 i
          = 0) :=
  ⟨⟨by decide, by decide, by decide⟩,
   RadialIntegral.integrate_early_stop
     (fun ps : ℕ → ℚ => (if ps 0 = 0 then (0 : ℤ) else 1, (7 : ℚ)))
     2 (fun (l _ : ℕ) => if l = 1 then (0 : ℚ) else 1) ⟨3, fun _ => 0, 0, 2⟩ 0 1 1
     (by decide) (by decide) (by decide)
     (fun j hj => by
       have hj0 : j = 0 := by omega
       subst hj0
       decide)⟩

/-- C4 (amended): `buildU` tabulates `r^(N+2) · U(r, l)` (definitionally,
see `buildUtab`), and when the tabulated values exceed the tolerance exactly
on one contiguous run `[s, e]` that ends strictly before the last abscissa
— below-threshold before `s`, strictly below tolerance at `e + 1`, and
below-threshold through the end of the grid — the detection loop records
exactly `start = s` and `stop = e`, and abscissae outside `[s, e]`
contribute zero to any subsequent quadrature (the integrand array built by
`integrate` vanishes there). -/
theorem RadialIntegral.buildU_window (Ufn : ℚ → ℕ → ℚ) (l N : ℕ) (tol : ℚ)
    (g : RadialIntegral.GCQuadrature) (s e : ℕ)
    (hse : s ≤ e) (hen : e + 1 < g.n)
    (hpre : ∀ i, i < s → ¬ tol < RadialIntegral.buildUtab Ufn l N g i)
    (hrun : ∀ i, s ≤ i → i ≤ e → tol < RadialIntegral.buildUtab Ufn l N g i)
    (hdrop : RadialIntegral.buildUtab Ufn l N g (e + 1) < tol)
    (hpost : ∀ i, e < i → i < g.n → ¬ tol < RadialIntegral.buildUtab Ufn l N g i) :
    (RadialIntegral.buildU Ufn l N tol g).2.start = s ∧
    (RadialIntegral.buildU Ufn l N tol g).2.stop = e ∧
    ∀ (row : ℕ → ℚ) (j : ℕ), j < s ∨ e < j →
      RadialIntegral.windowParams (RadialIntegral.buildU Ufn l N tol g).2 row j = 0 := by
  have key : ∀ n, n ≤ g.n →
      (List.range n).foldl
        (RadialIntegral.buildUstep tol (RadialIntegral.buildUtab Ufn l N g))
        ⟨g.start, g.stop, false⟩ =
      (if n ≤ s then (⟨g.start, g.stop, false⟩ : RadialIntegral.WinState)
       else if n ≤ e + 1 then ⟨s, g.stop, true⟩
       else ⟨s, e, false⟩) := by
    intro n
    induction n with
    | zero => intro _; rw [if_pos (Nat.zero_le s)]; rfl
    | succ n ih =>
      intro hn1
      rw [List.range_succ, List.foldl_append, List.foldl_cons, List.foldl_nil,
        ih (by omega)]
      rcases Nat.lt_or_ge n s with hc | hc
      · rw [if_pos (by omega : n ≤ s), if_pos (by omega : n + 1 ≤ s)]
        simp [RadialIntegral.buildUstep, hpre n hc]
      · rcases Nat.lt_or_ge n (e + 1) with hc2 | hc2
        · have hr := hrun n hc (by omega)
          have hnlt : ¬ RadialIntegral.buildUtab Ufn l N g n < tol := not_lt_of_gt hr
          rcases Nat.eq_or_lt_of_le hc with he | hlt
          · subst he
            rw [if_pos (le_refl s), if_neg (by omega : ¬ s + 1 ≤ s),
              if_pos (by omega : s + 1 ≤ e + 1)]
            simp [RadialIntegral.buildUstep, hr, hnlt]
          · rw [if_neg (by omega : ¬ n ≤ s), if_pos (by omega : n ≤ e + 1),
              if_neg (by omega : ¬ n + 1 ≤ s), if_pos (by omega : n + 1 ≤ e + 1)]
            simp [RadialIntegral.buildUstep, hnlt]
        · rcases Nat.eq_or_lt_of_le hc2 with he | hlt
          · have hdrop2 : RadialIntegral.buildUtab Ufn l N g n < tol := he ▸ hdrop
            have hnot : ¬ tol < RadialIntegral.buildUtab Ufn l N g n :=
              not_lt_of_gt hdrop2
            have hne : n - 1 = e := by omega
            rw [if_neg (by omega : ¬ n ≤ s), if_pos (by omega : n ≤ e + 1),
              if_neg (by omega : ¬ n + 1 ≤ s), if_neg (by omega : ¬ n + 1 ≤ e + 1)]
            simp [RadialIntegral.buildUstep, hnot, hdrop2, hne]
          · rw [if_neg (by omega : ¬ n ≤ s), if_neg (by omega : ¬ n ≤ e + 1),
              if_neg (by omega : ¬ n + 1 ≤ s), if_neg (by omega : ¬ n + 1 ≤ e + 1)]
            simp [RadialIntegral.buildUstep, hpost n (by omega) (by omega)]
  have hfin := key g.n (le_refl _)
  rw [if_neg (by omega : ¬ g.n ≤ s), if_neg (by omega : ¬ g.n ≤ e + 1)] at hfin
  have hstart : (RadialIntegral.buildU Ufn l N tol g).2.start = s := by
    simp only [RadialIntegral.buildU, hfin]
  have hstop : (RadialIntegral.buildU Ufn l N tol g).2.stop = e := by
    simp only [RadialIntegral.buildU, hfin]
  refine ⟨hstart, hstop, ?_⟩
  intro row j hj
  simp only [RadialIntegral.windowParams, hstart, hstop]
  rw [if_neg]
  rcases hj with hj | hj <;> omega

/-- Counterexample for C4 as stated: a one-point grid whose single
tabulated value (at index `0`) exceeds the tolerance, with the caller's
preset window `[0, gridSize] = [0, 1]` (as `type1`/`type2` set it).  The
contiguous index sub-range exceeding the tolerance is exactly `{0}`, so the
claimed window is `[0, 0]`; but the end trigger never fires and the code
leaves `stop = 1` — an index that is not even a grid abscissa. -/
theorem RadialIntegral.buildU_window_cex :
    RadialIntegral.buildUtab (fun _ _ => (5 : ℚ)) 0 0 ⟨1, fun _ => 1, 0, 1⟩ 0 = 5 ∧
    (1 : ℚ) < 5 ∧
    (RadialIntegral.buildU (fun _ _ => (5 : ℚ)) 0 0 1 ⟨1, fun _ => 1, 0, 1⟩).2.start = 0 ∧
    (RadialIntegral.buildU (fun _ _ => (5 : ℚ)) 0 0 1 ⟨1, fun _ => 1, 0, 1⟩).2.stop = 1 ∧
    (RadialIntegral.buildU (fun _ _ => (5 : ℚ)) 0 0 1 ⟨1, fun _ => 1, 0, 1⟩).2.stop ≠ 0 := by
  refine ⟨?_, by norm_num, ?_, ?_, ?_⟩ <;>
    norm_num [RadialIntegral.buildU, RadialIntegral.buildUstep, RadialIntegral.buildUtab,
      List.range_succ]

/-- Witness for C4's amended theorem: a four-point grid whose tabulated
values are `0, 5, 20, 0` against tolerance `1`, so the above-tolerance run
is `[1, 2]`. -/
theorem RadialIntegral.buildU_window_witness :
    ((1 : ℕ) ≤ 2 ∧ 2 + 1 < 4 ∧
     (∀ i, i < 1 → ¬ (1 : ℚ) < RadialIntegral.buildUtab
        (fun r _ => if r = 1 ∨ r = 2 then (5 : ℚ) else 0) 0 0
        ⟨4, fun i => (i : ℚ), 0, 4⟩ i) ∧
     (∀ i, 1 ≤ i → i ≤ 2 → (1 : ℚ) < RadialIntegral.buildUtab
        (fun r _ => if r = 1 ∨ r = 2 then (5 : ℚ) else 0) 0 0
        ⟨4, fun i => (i : ℚ), 0, 4⟩ i) ∧
     RadialIntegral.buildUtab (fun r _ => if r = 1 ∨ r = 2 then (5 : ℚ) else 0) 0 0
        ⟨4, fun i => (i : ℚ), 0, 4⟩ (2 + 1) < 1) ∧
    ((RadialIntegral.buildU (fun r _ => if r = 1 ∨ r = 2 then (5 : ℚ) else 0) 0 0 1
        ⟨4, fun i => (i : ℚ), 0, 4⟩).2.start = 1 ∧
     (RadialIntegral.buildU (fun r _ => if r = 1 ∨ r = 2 then (5 : ℚ) else 0) 0 0 1
        ⟨4, fun i => (i : ℚ), 0, 4⟩).2.stop = 2 ∧
     ∀ (row : ℕ → ℚ) (j : ℕ), j < 1 ∨ 2 < j →
       RadialIntegral.windowParams
         (RadialIntegral.buildU (fun r _ => if r = 1 ∨ r = 2 then (5 : ℚ) else 0) 0 0 1
           ⟨4, fun i => (i : ℚ), 0, 4⟩).2 row j = 0) :=
  ⟨⟨by decide, by decide,
    fun i hi => by interval_cases i; norm_num [RadialIntegral.buildUtab],
    fun i h1 h2 => by interval_cases i <;> norm_num [RadialIntegral.buildUtab],
    by norm_num [RadialIntegral.buildUtab]⟩,
   RadialIntegral.buildU_window (fun r _ => if r = 1 ∨ r = 2 then (5 : ℚ) else 0) 0 0 1
     ⟨4, fun i => (i : ℚ), 0, 4⟩ 1 2 (by decide) (by decide)
     (fun i hi => by interval_cases i; norm_num [RadialIntegral.buildUtab])
     (fun i h1 h2 => by interval_cases i <;> norm_num [RadialIntegral.buildUtab])
     (by norm_num [RadialIntegral.buildUtab])
     (fun i h1 h2 => by interval_cases i; norm_num [RadialIntegral.buildUtab])⟩

/-- Helper: the stride-2 `(lam, mu)` loop nest of `type1` equals the single
sum over the filtered pair set used by the specification form. -/
theorem ECPIntegral.lamMuSum_eq (ang : ℕ → ℕ → ℕ → ℕ → ℤ → ℚ)
    (radials : ℕ → ℕ → ℤ → ℚ) (k l m : ℕ) (C : ℚ) :
    ECPIntegral.lamMuSum ang radials k l m C =
    ∑ q ∈ ECPIntegral.pairSet (k + l + m) m,
      C * ang k l m q.1 ((1 - 2 * ((l : ℤ) % 2)) * q.2) *
        radials (k + l + m) q.1 (q.1 + (1 - 2 * ((l : ℤ) % 2)) * q.2) := by
  unfold ECPIntegral.lamMuSum ECPIntegral.pairSet
  dsimp only
  conv_lhs => rw [Finset.sum_filter]
  conv_rhs => rw [Finset.sum_filter, Finset.sum_product]
  refine Finset.sum_congr rfl ?_
  intro lam hlam
  rw [Finset.mem_range] at hlam
  by_cases h1 : lam % 2 = (k + l + m) % 2
  · rw [if_pos h1, Finset.sum_filter]
    dsimp only
    simp only [h1, true_and]
    refine (Finset.sum_congr rfl ?_).trans
      (Finset.sum_subset (Finset.range_subset.mpr (by omega : lam + 1 ≤ k + l + m + 1)) ?_)
    · intro mu hmu
      rw [Finset.mem_range] at hmu
      simp only [eq_true (by omega : mu ≤ lam), true_and]
    · intro x hx hnx
      rw [Finset.mem_range] at hnx
      rw [if_neg]
      intro hand
      exact hnx (by omega)
  · rw [if_neg h1]
    symm
    refine Finset.sum_eq_zero ?_
    intro mu _
    dsimp only
    rw [if_neg]
    intro hand
    exact h1 hand.1

/-- C1: each entry of the shell-pair matrix produced by `ECPIntegral::type1`
equals `4π` times the sum, over all binomial re-expansion index tuples
`(k1,k2,l1,l2,m1,m2)` bounded by the Cartesian powers whose combined
coefficient `C` (the product of six `calcC` factors) satisfies
`|C| > 1e-14`, and over all `(λ,μ)` pairs with `λ ≤ k+l+m` of matching
parity, of `C` times the angular lookup at `(k,l,m,λ,±μ)` times the cached
radial integral at `(k+l+m, λ, ±μ)` (the sign being the source's
`msign = (-1)^l` convention). -/
theorem ECPIntegral.type1_entry_eq_spec (x1 y1 z1 x2 y2 z2 : ℕ)
    (Ax Ay Az Bx By Bz : ℚ) (fac : ℕ → ℚ)
    (ang : ℕ → ℕ → ℕ → ℕ → ℤ → ℚ) (radials : ℕ → ℕ → ℤ → ℚ) (pi : ℚ) :
    ECPIntegral.chiEntry x1 y1 z1 x2 y2 z2 Ax Ay Az Bx By Bz fac ang radials pi =
    ECPIntegral.chiEntrySpec x1 y1 z1 x2 y2 z2 Ax Ay Az Bx By Bz fac ang radials pi := by
  unfold ECPIntegral.chiEntry ECPIntegral.chiEntrySpec
  rw [mul_comm]
  congr 1
  rw [Finset.sum_filter]
  unfold ECPIntegral.tupleSet
  simp only [Finset.sum_product]
  refine Finset.sum_congr rfl fun k1 _ => Finset.sum_congr rfl fun k2 _ =>
    Finset.sum_congr rfl fun l1 _ => Finset.sum_congr rfl fun l2 _ =>
    Finset.sum_congr rfl fun m1 _ => Finset.sum_congr rfl fun m2 _ => ?_
  simp only [ECPIntegral.coeffC, ECPIntegral.lamMuSum_eq]

/-- Helper: triangle inequality for a sum against a pointwise bound. -/
theorem abs_sum_le_of_le {α : Type _} {s : Finset α} {F G : α → ℚ}
    (h : ∀ a ∈ s, |F a| ≤ G a) : |∑ a ∈ s, F a| ≤ ∑ a ∈ s, G a :=
  (Finset.abs_sum_le_sum_abs F s).trans (Finset.sum_le_sum h)

/-- Helper: the `(λ, μ)`-loop absolute-value sum is nonnegative. -/
theorem ECPIntegral.lamMuAbsSum_nonneg (ang : ℕ → ℕ → ℕ → ℕ → ℤ → ℚ)
    (radials : ℕ → ℕ → ℤ → ℚ) (k l m : ℕ) :
    0 ≤ ECPIntegral.lamMuAbsSum ang radials k l m := by
  unfold ECPIntegral.lamMuAbsSum
  exact Finset.sum_nonneg fun lam _ => Finset.sum_nonneg fun mu _ => abs_nonneg _

/-- Helper: one tuple's `(λ, μ)` contraction is bounded by `|C|` times the
angular-radial absolute sum. -/
theorem ECPIntegral.abs_lamMuSum_le (ang : ℕ → ℕ → ℕ → ℕ → ℤ → ℚ)
    (radials : ℕ → ℕ → ℤ → ℚ) (k l m : ℕ) (C : ℚ) :
    |ECPIntegral.lamMuSum ang radials k l m C| ≤
      |C| * ECPIntegral.lamMuAbsSum ang radials k l m := by
  unfold ECPIntegral.lamMuSum ECPIntegral.lamMuAbsSum
  dsimp only
  rw [Finset.mul_sum]
  refine abs_sum_le_of_le ?_
  intro lam _
  rw [Finset.mul_sum]
  refine abs_sum_le_of_le ?_
  intro mu _
  rw [mul_assoc, abs_mul]

/-- C6 (amended): disabling the `|C| > 1e-14` prune changes each shell-pair
matrix entry by at most `|4π| · 1e-14` times the summed magnitudes of the
angular-radial products of the pruned tuples — the prune drops terms whose
coefficient is at most `1e-14` in magnitude, so it is a bounded perturbation
(but not, in exact arithmetic, a no-op; see the counterexample). -/
theorem ECPIntegral.type1_prune_bound (x1 y1 z1 x2 y2 z2 : ℕ)
    (Ax Ay Az Bx By Bz : ℚ) (fac : ℕ → ℚ)
    (ang : ℕ → ℕ → ℕ → ℕ → ℤ → ℚ) (radials : ℕ → ℕ → ℤ → ℚ) (pi : ℚ) :
    |ECPIntegral.chiEntryNoPrune x1 y1 z1 x2 y2 z2 Ax Ay Az Bx By Bz fac ang radials pi -
     ECPIntegral.chiEntry x1 y1 z1 x2 y2 z2 Ax Ay Az Bx By Bz fac ang radials pi| ≤
    |4 * pi| * eps14 *
      (∑ k1 ∈ Finset.range (x1 + 1), ∑ k2 ∈ Finset.range (x2 + 1),
       ∑ l1 ∈ Finset.range (y1 + 1), ∑ l2 ∈ Finset.range (y2 + 1),
       ∑ m1 ∈ Finset.range (z1 + 1), ∑ m2 ∈ Finset.range (z2 + 1),
         (if eps14 < |ECPIntegral.calcC x1 k1 Ax fac * ECPIntegral.calcC y1 l1 Ay fac *
              ECPIntegral.calcC z1 m1 Az fac * ECPIntegral.calcC x2 k2 Bx fac *
              ECPIntegral.calcC y2 l2 By fac * ECPIntegral.calcC z2 m2 Bz fac| then 0
          else ECPIntegral.lamMuAbsSum ang radials (k1 + k2) (l1 + l2) (m1 + m2))) := by
  unfold ECPIntegral.chiEntryNoPrune ECPIntegral.chiEntry
  dsimp only
  rw [← sub_mul, abs_mul, mul_comm, mul_assoc]
  refine mul_le_mul_of_nonneg_left ?_ (abs_nonneg _)
  simp only [Finset.mul_sum]
  simp only [← Finset.sum_sub_distrib]
  refine abs_sum_le_of_le ?_
  intro k1 _
  refine abs_sum_le_of_le ?_
  intro k2 _
  refine abs_sum_le_of_le ?_
  intro l1 _
  refine abs_sum_le_of_le ?_
  intro l2 _
  refine abs_sum_le_of_le ?_
  intro m1 _
  refine abs_sum_le_of_le ?_
  intro m2 _
  by_cases hp : eps14 < |ECPIntegral.calcC x1 k1 Ax fac * ECPIntegral.calcC y1 l1 Ay fac *
      ECPIntegral.calcC z1 m1 Az fac * ECPIntegral.calcC x2 k2 Bx fac *
      ECPIntegral.calcC y2 l2 By fac * ECPIntegral.calcC z2 m2 Bz fac|
  · rw [if_pos hp, if_pos hp, sub_self, abs_zero, mul_zero]
  · rw [if_neg hp, if_neg hp, sub_zero]
    refine (ECPIntegral.abs_lamMuSum_le ang radials (k1 + k2) (l1 + l2) (m1 + m2) _).trans ?_
    exact mul_le_mul_of_nonneg_right (not_lt.mp hp)
      (ECPIntegral.lamMuAbsSum_nonneg ang radials (k1 + k2) (l1 + l2) (m1 + m2))

/-- Counterexample for C6 as stated: in exact arithmetic the prune is not a
no-op.  With shell A of angular momentum 1 at `Ax = 1e-20` (component
`(1,0,0)`), shell B an s-function at the origin, and constant-1 angular and
radial tables, the `k1 = 0` re-expansion term has coefficient
`C = -1e-20` with `|C| ≤ 1e-14`, so the pruned contraction drops it while
the unpruned contraction accumulates it: the two entries differ (by
`4·1e-20`). -/
theorem ECPIntegral.type1_prune_changes_entry :
    ECPIntegral.chiEntryNoPrune 1 0 0 0 0 0 (1 / 10 ^ 20) 0 0 0 0 0 facA
        (fun _ _ _ _ _ => 1) (fun _ _ _ => 1) 1 ≠
    ECPIntegral.chiEntry 1 0 0 0 0 0 (1 / 10 ^ 20) 0 0 0 0 0 facA
        (fun _ _ _ _ _ => 1) (fun _ _ _ => 1) 1 := by
  have h0 : ECPIntegral.calcC 1 0 (1 / 10 ^ 20 : ℚ) facA = -(1 / 10 ^ 20) := by
    norm_num [ECPIntegral.calcC, facA]
  have h1 : ECPIntegral.calcC 1 1 (1 / 10 ^ 20 : ℚ) facA = 1 := by
    norm_num [ECPIntegral.calcC, facA]
  have hc : ECPIntegral.calcC 0 0 (0 : ℚ) facA = 1 := by
    norm_num [ECPIntegral.calcC, facA]
  have hcond0 : ¬ (eps14 < |(-(1 / 10 ^ 20) * 1 * 1 * 1 * 1 * 1 : ℚ)|) := by
    rw [show (-(1 / 10 ^ 20) * 1 * 1 * 1 * 1 * 1 : ℚ) = -(1 / 10 ^ 20) by ring,
      abs_neg, abs_of_nonneg (by norm_num)]
    norm_num [eps14]
  have hcond1 : (eps14 < |((1 : ℚ) * 1 * 1 * 1 * 1 * 1 : ℚ)|) := by
    rw [show ((1 : ℚ) * 1 * 1 * 1 * 1 * 1 : ℚ) = 1 by ring, abs_of_nonneg (by norm_num)]
    norm_num [eps14]
  simp only [ECPIntegral.chiEntry, ECPIntegral.chiEntryNoPrune,
    Finset.sum_range_succ, Finset.sum_range_zero, h0, h1, hc, hcond0, hcond1,
    if_true, if_false, zero_add]
  simp only [ECPIntegral.lamMuSum, Finset.sum_filter, Finset.sum_range_succ,
    Finset.sum_range_zero]
  norm_num

/-- C2 (behavior the code actually has): whenever the forced large-grid
fallback of `RadialIntegral::type2` recomputes two failed rows `l1` and
`l1'`, it produces identical values for them — the recomputation tabulates
the shell-A Bessel profile at order `l2` (not `l1`) and at the small-grid
abscissae, so the recomputed entry does not depend on `l1` at all.  The
small-grid `(l1, l2)` integrand `U·Fa(l1)·Fb(l2)` does depend on `l1`, so
the fallback cannot reproduce the same `(l1, l2)` integral within any
tolerance smaller than the separation of the rows. -/
theorem RadialIntegral.type2_fallback_row_independent
    (env : RadialIntegral.RadialEnv) (SA SB : RadialIntegral.GaussianShell) (A B : ℚ)
    (l N maxL1 maxL2 : ℕ) (tol : ℚ) (l1 l1' l2 : ℕ)
    (h1 : (RadialIntegral.type2SmallRow env SA SB A B l N maxL1 maxL2 tol l1).1 = some 0)
    (h2 : (RadialIntegral.type2SmallRow env SA SB A B l N maxL1 maxL2 tol l1').1 = some 0) :
    RadialIntegral.type2Value env SA SB A B l N maxL1 maxL2 tol l1 l2 =
    RadialIntegral.type2Value env SA SB A B l N maxL1 maxL2 tol l1' l2 := by
  simp only [RadialIntegral.type2Value]
  rw [if_pos h1, if_pos h2]

/-- Witness for C2's theorem: single-primitive shells with `maxL1 = 1` and a
small-grid quadrature that reports failure, forcing the fallback for both
rows `l1 = 0` and `l1 = 1`. -/
theorem RadialIntegral.type2_fallback_row_independent_witness :
    ((RadialIntegral.type2SmallRow
        ⟨fun _ _ => 0, fun _ => 0, fun _ _ => 0, fun _ => ((0 : ℤ), (0 : ℚ)),
         fun _ => 0, 1, fun _ _ _ => ((1 : ℤ), (0 : ℚ)), fun _ _ _ => 0, 1⟩
        ⟨1, fun _ => 1, fun _ => 1⟩ ⟨1, fun _ => 1, fun _ => 1⟩ 0 0 0 0 1 0 1 0).1
      = some 0 ∧
     (RadialIntegral.type2SmallRow
        ⟨fun _ _ => 0, fun _ => 0, fun _ _ => 0, fun _ => ((0 : ℤ), (0 : ℚ)),
         fun _ => 0, 1, fun _ _ _ => ((1 : ℤ), (0 : ℚ)), fun _ _ _ => 0, 1⟩
        ⟨1, fun _ => 1, fun _ => 1⟩ ⟨1, fun _ => 1, fun _ => 1⟩ 0 0 0 0 1 0 1 1).1
      = some 0) ∧
    RadialIntegral.type2Value
        ⟨fun _ _ => 0, fun _ => 0, fun _ _ => 0, fun _ => ((0 : ℤ), (0 : ℚ)),
         fun _ => 0, 1, fun _ _ _ => ((1 : ℤ), (0 : ℚ)), fun _ _ _ => 0, 1⟩
        ⟨1, fun _ => 1, fun _ => 1⟩ ⟨1, fun _ => 1, fun _ => 1⟩ 0 0 0 0 1 0 1 0 0
      = RadialIntegral.type2Value
        ⟨fun _ _ => 0, fun _ => 0, fun _ _ => 0, fun _ => ((0 : ℤ), (0 : ℚ)),
         fun _ => 0, 1, fun _ _ _ => ((1 : ℤ), (0 : ℚ)), fun _ _ _ => 0, 1⟩
        ⟨1, fun _ => 1, fun _ => 1⟩ ⟨1, fun _ => 1, fun _ => 1⟩ 0 0 0 0 1 0 1 1 0 :=
  ⟨⟨by simp [RadialIntegral.type2SmallRow, RadialIntegral.integrate,
      RadialIntegral.integrateLoop],
    by simp [RadialIntegral.type2SmallRow, RadialIntegral.integrate,
      RadialIntegral.integrateLoop]⟩,
   RadialIntegral.type2_fallback_row_independent
     ⟨fun _ _ => 0, fun _ => 0, fun _ _ => 0, fun _ => ((0 : ℤ), (0 : ℚ)),
      fun _ => 0, 1, fun _ _ _ => ((1 : ℤ), (0 : ℚ)), fun _ _ _ => 0, 1⟩
     ⟨1, fun _ => 1, fun _ => 1⟩ ⟨1, fun _ => 1, fun _ => 1⟩ 0 0 0 0 1 0 1 0 1 0
     (by simp [RadialIntegral.type2SmallRow, RadialIntegral.integrate,
       RadialIntegral.integrateLoop])
     (by simp [RadialIntegral.type2SmallRow, RadialIntegral.integrate,
       RadialIntegral.integrateLoop])⟩

/-- C9 (behavior the code actually has): when `offset` exceeds `maxL`, the
ladder loop of `RadialIntegral::integrate` never executes, so no quadrature
is attempted and every output entry stays zero, but the returned flag is the
never-assigned local `int test` — modelled as `none`, i.e. an indeterminate
value, not a determinate pass/fail flag. -/
theorem RadialIntegral.integrate_empty_ladder (qint : (ℕ → ℚ) → ℤ × ℚ)
    (maxL : ℕ) (intValues : ℕ → ℕ → ℚ) (g : RadialIntegral.GCQuadrature)
    (offset skip : ℕ) (h : maxL < offset) :
    (RadialIntegral.integrate qint maxL intValues g offset skip).1 = none ∧
    (∀ i, (RadialIntegral.integrate qint maxL intValues g offset skip).2.1 i = 0) ∧
    (RadialIntegral.integrate qint maxL intValues g offset skip).2.2 = [] := by
  unfold RadialIntegral.integrate
  rw [show maxL + 1 = maxL + 1 from rfl]
  simp [RadialIntegral.integrateLoop, h]

/-- Witness for C9's theorem: `maxL = 0`, `offset = 1`. -/
theorem RadialIntegral.integrate_empty_ladder_witness :
    (0 : ℕ) < 1 ∧
    ((RadialIntegral.integrate (fun _ => (1, 5)) 0 (fun _ _ => 3)
        ⟨1, fun _ => 0, 0, 0⟩ 1 1).1 = none ∧
     (∀ i, (RadialIntegral.integrate (fun _ => (1, 5)) 0 (fun _ _ => 3)
        ⟨1, fun _ => 0, 0, 0⟩ 1 1).2.1 i = 0) ∧
     (RadialIntegral.integrate (fun _ => (1, 5)) 0 (fun _ _ => 3)
        ⟨1, fun _ => 0, 0, 0⟩ 1 1).2.2 = []) :=
  ⟨by decide,
   RadialIntegral.integrate_empty_ladder (fun _ => (1, 5)) 0 (fun _ _ => 3)
     ⟨1, fun _ => 0, 0, 0⟩ 1 1 (by decide)⟩
